import Mathlib

/-!
Shallow embedding of the osm-parser repository (src/src/types.rs, src/src/types/raw.rs,
src/src/convert.rs, src/src/structs.rs, src/src/parser.rs).

Modelling conventions:
* The crate's `Float` (f32 by default, f64 behind a feature flag) is modelled as `ℝ`;
  finite floating-point values are abstracted to real numbers, so floating-point
  rounding is not modelled.
* `HashMap<K, V>` is modelled as an association list `List (K × V)` whose insert
  overwrites an existing key in place (last-write-wins), matching HashMap semantics.
* `u64`/`u32` ids and counters are modelled as `ℕ`.
* `serde_json::Value` is modelled by an inductive `Json` type whose numbers carry `ℚ`
  (every JSON number literal is a rational); decoding a number into an `f64` field is
  modelled as the cast `ℚ → ℝ`.
* Fallible Rust code returning `Result<T, E>` is modelled as `Except String T`.
-/

namespace Osm

open Real

/-- Model of the crate-wide `Id` alias (`u64`). -/
abbrev Id : Type := ℕ

/-- `Tags = HashMap<String, String>`, modelled as an association list. -/
abbrev Tags : Type := List (String × String)

/-- `Coordinate` from src/src/types.rs: a latitude/longitude pair of `Float`s. -/
structure Coordinate where
  lat : ℝ
  lon : ℝ

theorem Coordinate.eq_iff_parts (a b : Coordinate) : a = b ↔ a.lat = b.lat ∧ a.lon = b.lon := by
  cases a; cases b; simp

/-- `Coordinate::ZERO`. -/
def Coordinate.ZERO : Coordinate := ⟨0, 0⟩

/-- `Coordinate::MIN = (-90, -180)`. -/
def Coordinate.MIN : Coordinate := ⟨-90, -180⟩

/-- `Coordinate::MAX = (90, 180)`. -/
def Coordinate.MAX : Coordinate := ⟨90, 180⟩

/-- `Node` from src/src/types.rs. -/
structure Node where
  id : Id
  pos : Coordinate
  timestamp : String
  version : ℕ
  changeset : ℕ
  user : String
  tags : Tags

/-- `Nodes = HashMap<Id, Node>`. -/
abbrev Nodes : Type := List (Id × Node)

/-- `Way` from src/src/types.rs. -/
structure Way where
  id : Id
  timestamp : String
  version : ℕ
  changeset : ℕ
  user : String
  nodes : List Id
  tags : Tags

/-- `Ways = HashMap<Id, Way>`. -/
abbrev Ways : Type := List (Id × Way)

/-- `Bounds` from src/src/types.rs. -/
structure Bounds where
  min : Coordinate
  max : Coordinate

theorem Bounds.eq_iff_corners (a b : Bounds) : a = b ↔ a.min = b.min ∧ a.max = b.max := by
  cases a; cases b; simp

/-- `Bounds::ZERO`. -/
def Bounds.ZERO : Bounds := ⟨Coordinate.ZERO, Coordinate.ZERO⟩

/-- One iteration of the accumulation loop shared by `Bounds::calculate`
(src/src/types.rs) and `Bounds::compute` (src/src/structs.rs): take the
element-wise min into the `min` corner and the element-wise max into the
`max` corner against one node's position. -/
noncomputable def boundsStep (acc : Bounds) (n : Node) : Bounds :=
  { min := ⟨Min.min acc.min.lat n.pos.lat, Min.min acc.min.lon n.pos.lon⟩
    max := ⟨Max.max acc.max.lat n.pos.lat, Max.max acc.max.lon n.pos.lon⟩ }

/-- `Bounds::calculate` from src/src/types.rs.  The source returns `Bounds::ZERO`
for an empty mapping, and otherwise seeds the accumulator with
`min = Coordinate::INF`, `max = Coordinate::NEG_INF` and folds `boundsStep` over
every node.  `ℝ` has no infinities; since `min(+∞, x) = x` and `max(-∞, x) = x`
for every finite `x`, the very first loop iteration collapses the infinite seed
to the first node's position, so the fold is modelled as seeded with the first
node's position and run over the remaining nodes. -/
noncomputable def Bounds.calculate (nodes : Nodes) : Bounds :=
  match nodes with
  | [] => Bounds.ZERO
  | (_, n) :: rest => rest.foldl (fun acc p => boundsStep acc p.2) ⟨n.pos, n.pos⟩

/-- `Bounds::center` from src/src/types.rs: per-axis arithmetic midpoint. -/
noncomputable def Bounds.center (b : Bounds) : Coordinate :=
  ⟨(b.min.lat + b.max.lat) / 2, (b.min.lon + b.max.lon) / 2⟩

/-- `Bounds::compute` from src/src/structs.rs (the historical snapshot; its `f32`
coordinates are modelled as `ℝ` like every other `Float`).  The source returns
`Bounds::ZERO` for an empty mapping and otherwise seeds the accumulator with
`min = Coordinate::MAX = (90, 180)`, `max = Coordinate::MIN = (-90, -180)` and
folds the same element-wise min/max step over every node. -/
noncomputable def Bounds.compute (nodes : Nodes) : Bounds :=
  match nodes with
  | [] => Bounds.ZERO
  | l => l.foldl (fun acc p => boundsStep acc p.2) ⟨Coordinate.MAX, Coordinate.MIN⟩

/-- `Bounds::center` from src/src/structs.rs:
`lat = min.lat + (max.lat - min.lat)`, `lon = min.lon + (max.lon - min.lon)`. -/
noncomputable def Bounds.centerS (b : Bounds) : Coordinate :=
  ⟨b.min.lat + (b.max.lat - b.min.lat), b.min.lon + (b.max.lon - b.min.lon)⟩

/-- `OsmData` from src/src/types.rs. -/
structure OsmData where
  version : String
  generator : String
  copyright : String
  attribution : String
  license : String
  bounds : Bounds
  nodes : Nodes
  ways : Ways

/-- `OsmData::calculate_bounds` from src/src/types.rs: overwrite the `bounds`
field with `Bounds::calculate(&self.nodes)` (modelled functionally). -/
noncomputable def OsmData.calculate_bounds (d : OsmData) : OsmData :=
  { d with bounds := Bounds.calculate d.nodes }

/-- `merge_tags` from src/src/types.rs: `to.extend(from)`.
`HashMap::extend` inserts every pair of `from` into `to`, overwriting the
value of a key that is already present.  On the association-list model one
insert is `insertTag`; `merge_tags` folds it over `from` in iteration order. -/
def insertTag (m : Tags) (k v : String) : Tags :=
  match m with
  | [] => [(k, v)]
  | (k₀, v₀) :: rest => if k₀ = k then (k, v) :: rest else (k₀, v₀) :: insertTag rest k v

/-- See `insertTag`; this is the `to.extend(from)` body of `merge_tags`. -/
def merge_tags (tgt src : Tags) : Tags :=
  src.foldl (fun acc kv => insertTag acc kv.1 kv.2) tgt

/-- Association-list lookup used to state properties of `Tags` maps. -/
def lookupTag (m : Tags) (k : String) : Option String :=
  match m with
  | [] => none
  | (k₀, v₀) :: rest => if k₀ = k then some v₀ else lookupTag rest k

/-! ## src/src/convert.rs -/

/-- The Earth-radius constant `R = 6378137.` of src/src/convert.rs. -/
noncomputable def Rearth : ℝ := 6378137

/-- Rust `Float::to_radians`: multiply by π/180. -/
noncomputable def toRadians (x : ℝ) : ℝ := x * (π / 180)

/-- Rust `Float::to_degrees`: multiply by 180/π. -/
noncomputable def toDegrees (x : ℝ) : ℝ := x * (180 / π)

/-- `lat2y` from src/src/convert.rs:
`(lat.to_radians() / 2. + FRAC_PI_4).tan().log(E) * R` (log base e). -/
noncomputable def lat2y (lat : ℝ) : ℝ :=
  Real.log (Real.tan (toRadians lat / 2 + π / 4)) * Rearth

/-- `lon2x` from src/src/convert.rs: `R * lon.to_radians()`. -/
noncomputable def lon2x (lon : ℝ) : ℝ := Rearth * toRadians lon

/-- `y2lat` from src/src/convert.rs:
`(2. * (y / R).exp().atan() - FRAC_PI_2).to_degrees()`. -/
noncomputable def y2lat (y : ℝ) : ℝ :=
  toDegrees (2 * Real.arctan (Real.exp (y / Rearth)) - π / 2)

/-- `x2lon` from src/src/convert.rs: `(x / R).to_degrees()`. -/
noncomputable def x2lon (x : ℝ) : ℝ := toDegrees (x / Rearth)

/-- `Projection` from src/src/convert.rs: the built-in Web Mercator scheme or a
caller-supplied transform on a single `Coordinate`. -/
inductive Projection where
  | WebMercator : Projection
  | Custom (f : Coordinate → Coordinate) : Projection

/-- `impl Convert for Coordinate`, `convert_to` (modelled functionally). -/
noncomputable def Coordinate.convert_to (c : Coordinate) (p : Projection) : Coordinate :=
  match p with
  | .WebMercator => ⟨lat2y c.lat, lon2x c.lon⟩
  | .Custom f => f c

/-- `impl Convert for Coordinate`, `revert_from`. -/
noncomputable def Coordinate.revert_from (c : Coordinate) (p : Projection) : Coordinate :=
  match p with
  | .WebMercator => ⟨y2lat c.lat, x2lon c.lon⟩
  | .Custom f => f c

/-- `impl Convert for Node`: delegates to the position. -/
noncomputable def Node.convert_to (n : Node) (p : Projection) : Node :=
  { n with pos := n.pos.convert_to p }

/-- `impl Convert for Node`: delegates to the position. -/
noncomputable def Node.revert_from (n : Node) (p : Projection) : Node :=
  { n with pos := n.pos.revert_from p }

/-- `impl Convert for OsmData`: applies the node conversion to every node in the
mapping, touching nothing else. -/
noncomputable def OsmData.convert_to (d : OsmData) (p : Projection) : OsmData :=
  { d with nodes := d.nodes.map fun q => (q.1, q.2.convert_to p) }

/-- `impl Convert for OsmData`: inverse direction. -/
noncomputable def OsmData.revert_from (d : OsmData) (p : Projection) : OsmData :=
  { d with nodes := d.nodes.map fun q => (q.1, q.2.revert_from p) }

/-! ## src/src/types/raw.rs and the decoding stage of src/src/types.rs

`serde_json::Value` is modelled by `Json`; object fields are an association
list with unique keys (the serde_json map).  JSON numbers carry the exact
rational value of the literal. -/

inductive Json where
  | null : Json
  | bool (b : Bool) : Json
  | num (q : ℚ) : Json
  | str (s : String) : Json
  | arr (elems : List Json) : Json
  | obj (fields : List (String × Json)) : Json

/-- Field lookup inside a JSON object's field list. -/
def jlookup (fields : List (String × Json)) (k : String) : Option Json :=
  match fields with
  | [] => none
  | (k₀, v₀) :: rest => if k₀ = k then some v₀ else jlookup rest k

/-- serde_json's `Value` string indexing `e["k"]`: yields the field for an
object that has it and `Value::Null` otherwise (also for non-objects). -/
def Json.index (j : Json) (k : String) : Json :=
  match j with
  | .obj fields => (jlookup fields k).getD .null
  | _ => .null

/-- serde_json's `Value::as_str`. -/
def Json.as_str (j : Json) : Option String :=
  match j with
  | .str s => some s
  | _ => none

/-- serde's "missing field" check: a required field of a derived struct. -/
def jfield (fields : List (String × Json)) (k : String) : Except String Json :=
  match jlookup fields k with
  | some v => Except.ok v
  | none => Except.error ("missing field " ++ k)

/-- serde decoding of a `u64`: the JSON number must be an integer in range. -/
def asU64 (j : Json) : Except String ℕ :=
  match j with
  | .num q => if q.den = 1 ∧ 0 ≤ q.num ∧ q.num < 2 ^ 64 then Except.ok q.num.toNat
              else Except.error "invalid u64"
  | _ => Except.error "expected u64"

/-- serde decoding of a `u32`. -/
def asU32 (j : Json) : Except String ℕ :=
  match j with
  | .num q => if q.den = 1 ∧ 0 ≤ q.num ∧ q.num < 2 ^ 32 then Except.ok q.num.toNat
              else Except.error "invalid u32"
  | _ => Except.error "expected u32"

/-- serde decoding of a float (`f64`/`f32`) field: any JSON number. -/
def asNum (j : Json) : Except String ℚ :=
  match j with
  | .num q => Except.ok q
  | _ => Except.error "expected number"

/-- serde decoding of a `String` field. -/
def asStr (j : Json) : Except String String :=
  match j with
  | .str s => Except.ok s
  | _ => Except.error "expected string"

/-- serde decoding of a `Tags` map: an object all of whose values are strings. -/
def asTags (j : Json) : Except String Tags :=
  match j with
  | .obj fields => fields.mapM fun kv => (asStr kv.2).map fun s => (kv.1, s)
  | _ => Except.error "expected map"

/-- serde decoding of a `Vec<Id>` field. -/
def asIdList (j : Json) : Except String (List Id) :=
  match j with
  | .arr elems => elems.mapM asU64
  | _ => Except.error "expected sequence"

/-- `RawNode` from src/src/types/raw.rs: the node schema as decoded from JSON.
`lat`/`lon` keep the exact rational of the JSON literal. -/
structure RawNode where
  id : Id
  lat : ℚ
  lon : ℚ
  timestamp : String
  version : ℕ
  changeset : ℕ
  user : String
  tags : Tags

/-- serde's derived decoder for `RawNode`: every field is required except
`tags`, which `#[serde(default)]` defaults to the empty map. -/
def decodeRawNode (j : Json) : Except String RawNode :=
  match j with
  | .obj fields => do
    let id ← asU64 (← jfield fields "id")
    let lat ← asNum (← jfield fields "lat")
    let lon ← asNum (← jfield fields "lon")
    let timestamp ← asStr (← jfield fields "timestamp")
    let version ← asU32 (← jfield fields "version")
    let changeset ← asU64 (← jfield fields "changeset")
    let user ← asStr (← jfield fields "user")
    let tags ← match jlookup fields "tags" with
      | none => Except.ok ([] : Tags)
      | some t => asTags t
    Except.ok { id, lat, lon, timestamp, version, changeset, user, tags }
  | _ => Except.error "expected struct RawNode"

/-- serde's derived decoder for `Way` (src/src/types.rs decodes `Way` directly;
`tags` is `#[serde(default)]`). -/
def decodeWay (j : Json) : Except String Way :=
  match j with
  | .obj fields => do
    let id ← asU64 (← jfield fields "id")
    let timestamp ← asStr (← jfield fields "timestamp")
    let version ← asU32 (← jfield fields "version")
    let changeset ← asU64 (← jfield fields "changeset")
    let user ← asStr (← jfield fields "user")
    let nodes ← asIdList (← jfield fields "nodes")
    let tags ← match jlookup fields "tags" with
      | none => Except.ok ([] : Tags)
      | some t => asTags t
    Except.ok { id, timestamp, version, changeset, user, nodes, tags }
  | _ => Except.error "expected struct Way"

/-- `impl From<RawNode> for Node` from src/src/types.rs: reshape `lat`/`lon`
into the `pos` coordinate (cast to the `Float` model `ℝ`), copy the rest. -/
noncomputable def Node.ofRaw (n : RawNode) : Node :=
  { id := n.id
    pos := ⟨(n.lat : ℝ), (n.lon : ℝ)⟩
    timestamp := n.timestamp
    version := n.version
    changeset := n.changeset
    user := n.user
    tags := n.tags }

/-- `RawBounds` from src/src/types/raw.rs: four flat numeric fields. -/
structure RawBounds where
  minlat : ℝ
  maxlat : ℝ
  minlon : ℝ
  maxlon : ℝ

/-- `impl From<RawBounds> for Bounds` from src/src/types.rs. -/
noncomputable def Bounds.ofRaw (b : RawBounds) : Bounds :=
  ⟨⟨b.minlat, b.minlon⟩, ⟨b.maxlat, b.maxlon⟩⟩

/-- `RawOsmData` from src/src/types/raw.rs: the decoded envelope with its
still-untyped `elements` array. -/
structure RawOsmData where
  version : String
  generator : String
  copyright : String
  attribution : String
  license : String
  bounds : RawBounds
  elements : List Json

/-- The result of dispatching one element of the `elements` array. -/
inductive Element where
  | node (n : RawNode) : Element
  | way (w : Way) : Element
  | relation : Element

/-- One iteration of the `for e in raw.elements` loop of
`TryFrom<RawOsmData> for OsmData` (src/src/types.rs): read the `type`
discriminator with `e["type"].as_str()`, then decode per the match arms;
`"relation"` is skipped, any other tag is the "invalid element type" error. -/
noncomputable def stepDecode (e : Json) : Except String Element :=
  match (e.index "type").as_str with
  | none => Except.error "type is not a string"
  | some t =>
    if t = "node" then (decodeRawNode e).map Element.node
    else if t = "way" then (decodeWay e).map Element.way
    else if t = "relation" then Except.ok Element.relation
    else Except.error "invalid element type"

/-- `HashMap::insert`: overwrite an existing key's entry in place, else append. -/
def insertById {α : Type} (m : List (Id × α)) (k : Id) (v : α) : List (Id × α) :=
  match m with
  | [] => [(k, v)]
  | (k₀, v₀) :: rest => if k₀ = k then (k, v) :: rest else (k₀, v₀) :: insertById rest k v

/-- The element loop of `TryFrom<RawOsmData> for OsmData`, threading the two
accumulating mappings; the first failing element aborts the whole loop. -/
noncomputable def buildMaps (elems : List Json) (ns : Nodes) (ws : Ways) :
    Except String (Nodes × Ways) :=
  match elems with
  | [] => Except.ok (ns, ws)
  | e :: rest =>
    match stepDecode e with
    | Except.error msg => Except.error msg
    | Except.ok (Element.node n) => buildMaps rest (insertById ns n.id (Node.ofRaw n)) ws
    | Except.ok (Element.way w) => buildMaps rest ns (insertById ws w.id w)
    | Except.ok Element.relation => buildMaps rest ns ws

/-- `TryFrom<RawOsmData> for OsmData` from src/src/types.rs: run the element
loop and, only if every element decoded, assemble the aggregate with the
envelope metadata copied verbatim and the declared bounds reshaped. -/
noncomputable def OsmData.tryFrom (raw : RawOsmData) : Except String OsmData :=
  (buildMaps raw.elements [] []).map fun m =>
    { version := raw.version
      generator := raw.generator
      copyright := raw.copyright
      attribution := raw.attribution
      license := raw.license
      bounds := Bounds.ofRaw raw.bounds
      nodes := m.1
      ways := m.2 }

/-! ## Concrete inputs used to instantiate the theorems -/

/-- The bounds rectangle of the repository's `tests_bounds` fixture. -/
noncomputable def boundsEx : Bounds :=
  ⟨⟨41.30365, -81.90212⟩, ⟨41.30453, -81.90126⟩⟩

/-- A node with an out-of-range latitude (95°), position only. -/
noncomputable def nodeOut : Node := ⟨1, ⟨95, 0⟩, "", 0, 0, "", []⟩

/-- Two in-range nodes for instantiating the bounds theorems. -/
noncomputable def nodeA : Node := ⟨1, ⟨1, 2⟩, "", 0, 0, "", []⟩

/-- See `nodeA`. -/
noncomputable def nodeB : Node := ⟨2, ⟨3, 0⟩, "", 0, 0, "", []⟩

/-- An empty `OsmData` for instantiating the empty-bounds theorem. -/
def emptyOsm : OsmData := ⟨"", "", "", "", "", Bounds.ZERO, [], []⟩

/-- A JSON element tagged `"node"` with every required field. -/
def nodeJson : Json :=
  .obj [("type", .str "node"), ("id", .num 10), ("lat", .num 1), ("lon", .num 2),
        ("timestamp", .str "t1"), ("version", .num 1), ("changeset", .num 5),
        ("user", .str "u1")]

/-- A JSON element tagged `"way"` with every required field. -/
def wayJson : Json :=
  .obj [("type", .str "way"), ("id", .num 20), ("timestamp", .str "t2"),
        ("version", .num 1), ("changeset", .num 6), ("user", .str "u2"),
        ("nodes", .arr [.num 10])]

/-- A JSON element tagged `"relation"`. -/
def relationJson : Json := .obj [("type", .str "relation")]

/-- A JSON element with the unrecognized tag `"intersection"`. -/
def intersectionJson : Json := .obj [("type", .str "intersection")]

/-- An envelope holding one node, one way and one relation element. -/
def rawMixed : RawOsmData :=
  ⟨"0.6", "gen", "c", "a", "l", ⟨0, 0, 0, 0⟩, [nodeJson, wayJson, relationJson]⟩

/-- An envelope holding one element with the unrecognized tag. -/
def rawBad : RawOsmData :=
  ⟨"0.6", "gen", "c", "a", "l", ⟨0, 0, 0, 0⟩, [intersectionJson]⟩

/-! ## Helper lemmas on min/max folds -/

theorem foldl_min_le_init {α : Type} [LinearOrder α] (l : List α) (a : α) :
    l.foldl Min.min a ≤ a := by
  induction l generalizing a with
  | nil => exact le_refl a
  | cons x xs ih => exact le_trans (ih (Min.min a x)) (min_le_left a x)

theorem foldl_min_le_mem {α : Type} [LinearOrder α] {l : List α} {x : α} (a : α)
    (hx : x ∈ l) : l.foldl Min.min a ≤ x := by
  induction l generalizing a with
  | nil => cases hx
  | cons y ys ih =>
    rcases List.mem_cons.mp hx with h | h
    · subst h
      exact le_trans (foldl_min_le_init ys (Min.min a x)) (min_le_right a x)
    · exact ih (Min.min a y) h

theorem foldl_min_eq_init_or_mem {α : Type} [LinearOrder α] (l : List α) (a : α) :
    l.foldl Min.min a = a ∨ l.foldl Min.min a ∈ l := by
  induction l generalizing a with
  | nil => exact Or.inl rfl
  | cons x xs ih =>
    rcases ih (Min.min a x) with h | h
    · rcases min_choice a x with hm | hm
      · exact Or.inl (by rw [List.foldl_cons, h, hm])
      · exact Or.inr (by rw [List.foldl_cons, h, hm]; exact List.mem_cons_self x xs)
    · exact Or.inr (List.mem_cons_of_mem x h)

theorem init_le_foldl_max {α : Type} [LinearOrder α] (l : List α) (a : α) :
    a ≤ l.foldl Max.max a := by
  induction l generalizing a with
  | nil => exact le_refl a
  | cons x xs ih => exact le_trans (le_max_left a x) (ih (Max.max a x))

theorem mem_le_foldl_max {α : Type} [LinearOrder α] {l : List α} {x : α} (a : α)
    (hx : x ∈ l) : x ≤ l.foldl Max.max a := by
  induction l generalizing a with
  | nil => cases hx
  | cons y ys ih =>
    rcases List.mem_cons.mp hx with h | h
    · subst h
      exact le_trans (le_max_right a x) (init_le_foldl_max ys (Max.max a x))
    · exact ih (Max.max a y) h

theorem foldl_max_eq_init_or_mem {α : Type} [LinearOrder α] (l : List α) (a : α) :
    l.foldl Max.max a = a ∨ l.foldl Max.max a ∈ l := by
  induction l generalizing a with
  | nil => exact Or.inl rfl
  | cons x xs ih =>
    rcases ih (Max.max a x) with h | h
    · rcases max_choice a x with hm | hm
      · exact Or.inl (by rw [List.foldl_cons, h, hm])
      · exact Or.inr (by rw [List.foldl_cons, h, hm]; exact List.mem_cons_self x xs)
    · exact Or.inr (List.mem_cons_of_mem x h)

/-- The four components of the bounds-accumulation fold decouple into four
scalar min/max folds over the projected coordinate lists. -/
theorem boundsFold_components (l : List (Id × Node)) (acc : Bounds) :
    (l.foldl (fun acc p => boundsStep acc p.2) acc).min.lat
      = (l.map fun p => p.2.pos.lat).foldl Min.min acc.min.lat ∧
    (l.foldl (fun acc p => boundsStep acc p.2) acc).min.lon
      = (l.map fun p => p.2.pos.lon).foldl Min.min acc.min.lon ∧
    (l.foldl (fun acc p => boundsStep acc p.2) acc).max.lat
      = (l.map fun p => p.2.pos.lat).foldl Max.max acc.max.lat ∧
    (l.foldl (fun acc p => boundsStep acc p.2) acc).max.lon
      = (l.map fun p => p.2.pos.lon).foldl Max.max acc.max.lon := by
  induction l generalizing acc with
  | nil => exact ⟨rfl, rfl, rfl, rfl⟩
  | cons x xs ih =>
    simpa [boundsStep] using ih (boundsStep acc x.2)

/-! ## Claim theorems: bounds computation -/

/-- Claim C1: for every non-empty node mapping, the bounds returned by
`Bounds::calculate` (as invoked by `OsmData::calculate_bounds`) are tight:
every node's latitude lies within `[min.lat, max.lat]` and its longitude
within `[min.lon, max.lon]` inclusive, and each of the four components
`min.lat`, `max.lat`, `min.lon`, `max.lon` is attained by the corresponding
coordinate of at least one node in the mapping. -/
theorem calculate_bounds_tight (nodes : Nodes) (hne : nodes ≠ []) :
    (∀ p ∈ nodes,
      (Bounds.calculate nodes).min.lat ≤ p.2.pos.lat ∧
      p.2.pos.lat ≤ (Bounds.calculate nodes).max.lat ∧
      (Bounds.calculate nodes).min.lon ≤ p.2.pos.lon ∧
      p.2.pos.lon ≤ (Bounds.calculate nodes).max.lon) ∧
    (∃ p ∈ nodes, p.2.pos.lat = (Bounds.calculate nodes).min.lat) ∧
    (∃ p ∈ nodes, p.2.pos.lat = (Bounds.calculate nodes).max.lat) ∧
    (∃ p ∈ nodes, p.2.pos.lon = (Bounds.calculate nodes).min.lon) ∧
    (∃ p ∈ nodes, p.2.pos.lon = (Bounds.calculate nodes).max.lon) := by
  match nodes with
  | [] => exact absurd rfl hne
  | (i, n) :: rest =>
    obtain ⟨hminlat, hminlon, hmaxlat, hmaxlon⟩ :=
      boundsFold_components rest ⟨n.pos, n.pos⟩
    have hcalc : Bounds.calculate ((i, n) :: rest)
        = rest.foldl (fun acc p => boundsStep acc p.2) ⟨n.pos, n.pos⟩ := rfl
    rw [hcalc, hminlat, hminlon, hmaxlat, hmaxlon] at *
    refine ⟨?_, ?_, ?_, ?_, ?_⟩
    · intro p hp
      rcases List.mem_cons.mp hp with h | h
      · subst h
        exact ⟨foldl_min_le_init _ _, init_le_foldl_max _ _,
               foldl_min_le_init _ _, init_le_foldl_max _ _⟩
      · exact ⟨foldl_min_le_mem _ (List.mem_map_of_mem _ h),
               mem_le_foldl_max _ (List.mem_map_of_mem _ h),
               foldl_min_le_mem _ (List.mem_map_of_mem _ h),
               mem_le_foldl_max _ (List.mem_map_of_mem _ h)⟩
    · rcases foldl_min_eq_init_or_mem (rest.map fun p => p.2.pos.lat) n.pos.lat with h | h
      · exact ⟨(i, n), List.mem_cons_self _ _, h.symm⟩
      · obtain ⟨p, hp, hpe⟩ := List.mem_map.mp h
        exact ⟨p, List.mem_cons_of_mem _ hp, hpe⟩
    · rcases foldl_max_eq_init_or_mem (rest.map fun p => p.2.pos.lat) n.pos.lat with h | h
      · exact ⟨(i, n), List.mem_cons_self _ _, h.symm⟩
      · obtain ⟨p, hp, hpe⟩ := List.mem_map.mp h
        exact ⟨p, List.mem_cons_of_mem _ hp, hpe⟩
    · rcases foldl_min_eq_init_or_mem (rest.map fun p => p.2.pos.lon) n.pos.lon with h | h
      · exact ⟨(i, n), List.mem_cons_self _ _, h.symm⟩
      · obtain ⟨p, hp, hpe⟩ := List.mem_map.mp h
        exact ⟨p, List.mem_cons_of_mem _ hp, hpe⟩
    · rcases foldl_max_eq_init_or_mem (rest.map fun p => p.2.pos.lon) n.pos.lon with h | h
      · exact ⟨(i, n), List.mem_cons_self _ _, h.symm⟩
      · obtain ⟨p, hp, hpe⟩ := List.mem_map.mp h
        exact ⟨p, List.mem_cons_of_mem _ hp, hpe⟩

/-- Witness for C1: the tightness property instantiated on the concrete
two-node mapping `[(1, nodeA), (2, nodeB)]`. -/
theorem calculate_bounds_tight_witness :
    ([(1, nodeA), (2, nodeB)] : Nodes) ≠ [] ∧
    ((∀ p ∈ ([(1, nodeA), (2, nodeB)] : Nodes),
      (Bounds.calculate [(1, nodeA), (2, nodeB)]).min.lat ≤ p.2.pos.lat ∧
      p.2.pos.lat ≤ (Bounds.calculate [(1, nodeA), (2, nodeB)]).max.lat ∧
      (Bounds.calculate [(1, nodeA), (2, nodeB)]).min.lon ≤ p.2.pos.lon ∧
      p.2.pos.lon ≤ (Bounds.calculate [(1, nodeA), (2, nodeB)]).max.lon) ∧
    (∃ p ∈ ([(1, nodeA), (2, nodeB)] : Nodes),
      p.2.pos.lat = (Bounds.calculate [(1, nodeA), (2, nodeB)]).min.lat) ∧
    (∃ p ∈ ([(1, nodeA), (2, nodeB)] : Nodes),
      p.2.pos.lat = (Bounds.calculate [(1, nodeA), (2, nodeB)]).max.lat) ∧
    (∃ p ∈ ([(1, nodeA), (2, nodeB)] : Nodes),
      p.2.pos.lon = (Bounds.calculate [(1, nodeA), (2, nodeB)]).min.lon) ∧
    (∃ p ∈ ([(1, nodeA), (2, nodeB)] : Nodes),
      p.2.pos.lon = (Bounds.calculate [(1, nodeA), (2, nodeB)]).max.lon)) :=
  ⟨by simp, calculate_bounds_tight [(1, nodeA), (2, nodeB)] (by simp)⟩

/-- Claim C6: `Bounds::calculate` on an empty node mapping returns
`Bounds::ZERO` (never the infinity accumulator seeds), and
`OsmData::calculate_bounds` on an `OsmData` with no nodes sets the `bounds`
field to the zero-bounds value. -/
theorem calculate_bounds_empty (d : OsmData) (h : d.nodes = []) :
    Bounds.calculate d.nodes = Bounds.ZERO ∧
    (d.calculate_bounds).bounds = Bounds.ZERO := by
  rw [h]
  exact ⟨rfl, by simp [OsmData.calculate_bounds, h, Bounds.calculate]⟩

/-- Witness for C6: the empty-mapping bounds computation on a concrete empty
`OsmData`. -/
theorem calculate_bounds_empty_witness :
    Bounds.calculate emptyOsm.nodes = Bounds.ZERO ∧
    (emptyOsm.calculate_bounds).bounds = Bounds.ZERO :=
  calculate_bounds_empty emptyOsm rfl

/-- Claim C3 (divergence of the two `center` implementations at the claimed
input): the `types.rs` `Bounds::center` of the fixture rectangle is the
arithmetic midpoint `(41.30409, -81.90169)` as the claim states, but the
`structs.rs` `Bounds::center` (`min + (max - min)` per axis) of the same
rectangle is the max corner `(41.30453, -81.90126)`, not the midpoint: the
`structs.rs` code drops the division by two that its own doc comment
("Calculate the center") and the spec's example require. -/
theorem center_example_and_structs_divergence :
    Bounds.center boundsEx = ⟨41.30409, -81.90169⟩ ∧
    (∀ b : Bounds, Bounds.center b
      = ⟨(b.min.lat + b.max.lat) / 2, (b.min.lon + b.max.lon) / 2⟩) ∧
    Bounds.centerS boundsEx = ⟨41.30453, -81.90126⟩ ∧
    Bounds.centerS boundsEx ≠ Bounds.center boundsEx := by
  refine ⟨?_, fun b => rfl, ?_, ?_⟩
  · rw [Coordinate.eq_iff_parts]
    constructor <;> · show _ = _; simp only [Bounds.center, boundsEx]; norm_num
  · rw [Coordinate.eq_iff_parts]
    constructor <;> · show _ = _; simp only [Bounds.centerS, boundsEx]; norm_num
  · rw [Ne, Coordinate.eq_iff_parts]
    intro hcontra
    have := hcontra.1
    simp only [Bounds.centerS, Bounds.center, boundsEx] at this
    norm_num at this

/-- Claim C10 counterexample: the two historical bounds implementations are
not equivalent on every node mapping.  On the single node with latitude 95
(outside the valid range), `Bounds::compute` (seeded with
`min = Coordinate::MAX`) reports `min.lat = 90` while `Bounds::calculate`
(seeded at infinity) reports `min.lat = 95`. -/
theorem compute_ne_calculate :
    Bounds.compute [(1, nodeOut)] ≠ Bounds.calculate [(1, nodeOut)] := by
  rw [Ne, Bounds.eq_iff_corners]
  intro hcontra
  have h1 : (Bounds.compute [(1, nodeOut)]).min.lat
      = Min.min (90 : ℝ) 95 := by
    simp [Bounds.compute, boundsStep, nodeOut, Coordinate.MAX, Coordinate.MIN]
  have h2 : (Bounds.calculate [(1, nodeOut)]).min.lat = (95 : ℝ) := by
    simp [Bounds.calculate, nodeOut]
  have := hcontra.1
  rw [Coordinate.eq_iff_parts] at this
  rw [h1, h2] at this
  have h90 : Min.min (90 : ℝ) 95 = 90 := by norm_num
  rw [h90] at this
  norm_num at this

/-- Claim C10 as amended: the two bounds implementations agree on every node
mapping all of whose coordinates lie in the valid range
`[-90, 90] × [-180, 180]` (the counterexample shows they can differ outside
it). -/
theorem compute_eq_calculate_in_range (nodes : Nodes)
    (h : ∀ p ∈ nodes, -90 ≤ p.2.pos.lat ∧ p.2.pos.lat ≤ 90 ∧
                      -180 ≤ p.2.pos.lon ∧ p.2.pos.lon ≤ 180) :
    Bounds.compute nodes = Bounds.calculate nodes := by
  match nodes with
  | [] => rfl
  | (i, n) :: rest =>
    obtain ⟨h1, h2, h3, h4⟩ := h (i, n) (List.mem_cons_self _ _)
    have hstep : boundsStep ⟨Coordinate.MAX, Coordinate.MIN⟩ n = ⟨n.pos, n.pos⟩ := by
      rw [Bounds.eq_iff_corners, Coordinate.eq_iff_parts, Coordinate.eq_iff_parts]
      refine ⟨⟨?_, ?_⟩, ?_, ?_⟩ <;>
        simp only [boundsStep, Coordinate.MAX, Coordinate.MIN]
      · exact min_eq_right h2
      · exact min_eq_right h4
      · exact max_eq_right h1
      · exact max_eq_right h3
    show ((i, n) :: rest).foldl (fun acc p => boundsStep acc p.2)
        ⟨Coordinate.MAX, Coordinate.MIN⟩
      = rest.foldl (fun acc p => boundsStep acc p.2) ⟨n.pos, n.pos⟩
    rw [List.foldl_cons, hstep]

/-- Witness for the amended C10: both implementations produce the same bounds
on the concrete in-range mapping `[(1, nodeA), (2, nodeB)]`. -/
theorem compute_eq_calculate_in_range_witness :
    (∀ p ∈ ([(1, nodeA), (2, nodeB)] : Nodes),
      -90 ≤ p.2.pos.lat ∧ p.2.pos.lat ≤ 90 ∧
      -180 ≤ p.2.pos.lon ∧ p.2.pos.lon ≤ 180) ∧
    Bounds.compute [(1, nodeA), (2, nodeB)] = Bounds.calculate [(1, nodeA), (2, nodeB)] := by
  have h : ∀ p ∈ ([(1, nodeA), (2, nodeB)] : Nodes),
      -90 ≤ p.2.pos.lat ∧ p.2.pos.lat ≤ 90 ∧
      -180 ≤ p.2.pos.lon ∧ p.2.pos.lon ≤ 180 := by
    intro p hp
    rcases List.mem_cons.mp hp with h | h
    · subst h; refine ⟨?_, ?_, ?_, ?_⟩ <;> norm_num [nodeA]
    · rcases List.mem_cons.mp h with h | h
      · subst h; refine ⟨?_, ?_, ?_, ?_⟩ <;> norm_num [nodeB]
      · cases h
  exact ⟨h, compute_eq_calculate_in_range [(1, nodeA), (2, nodeB)] h⟩

/-! ## Claim theorems: tag merging -/

theorem lookupTag_insertTag_self (m : Tags) (k v : String) :
    lookupTag (insertTag m k v) k = some v := by
  induction m with
  | nil => simp [insertTag, lookupTag]
  | cons kv rest ih =>
    obtain ⟨k₀, v₀⟩ := kv
    by_cases h : k₀ = k
    · simp [insertTag, lookupTag, h]
    · simp [insertTag, lookupTag, h, ih]

theorem lookupTag_insertTag_ne (m : Tags) (k v k' : String) (h : k' ≠ k) :
    lookupTag (insertTag m k v) k' = lookupTag m k' := by
  induction m with
  | nil => simp [insertTag, lookupTag, Ne.symm h]
  | cons kv rest ih =>
    obtain ⟨k₀, v₀⟩ := kv
    by_cases h₀ : k₀ = k
    · subst h₀
      simp [insertTag, lookupTag, Ne.symm h]
    · by_cases h₁ : k₀ = k'
      · simp [insertTag, lookupTag, h₀, h₁, h]
      · simp [insertTag, lookupTag, h₀, h₁, ih]

theorem lookupTag_merge_not_mem (src : Tags) (tgt : Tags) (k : String)
    (h : ∀ v, (k, v) ∉ src) : lookupTag (merge_tags tgt src) k = lookupTag tgt k := by
  induction src generalizing tgt with
  | nil => rfl
  | cons kv rest ih =>
    obtain ⟨k₀, v₀⟩ := kv
    have hk : k ≠ k₀ := by
      intro hcontra
      exact h v₀ (hcontra ▸ List.mem_cons_self _ _)
    have hrest : ∀ v, (k, v) ∉ rest := fun v hv => h v (List.mem_cons_of_mem _ hv)
    show lookupTag (merge_tags (insertTag tgt k₀ v₀) rest) k = lookupTag tgt k
    rw [ih (insertTag tgt k₀ v₀) hrest, lookupTag_insertTag_ne tgt k₀ v₀ k hk]

theorem lookupTag_merge_mem (src : Tags) (tgt : Tags) (k v : String)
    (hnd : (src.map Prod.fst).Nodup) (h : (k, v) ∈ src) :
    lookupTag (merge_tags tgt src) k = some v := by
  induction src generalizing tgt with
  | nil => cases h
  | cons kv rest ih =>
    obtain ⟨k₀, v₀⟩ := kv
    rw [List.map_cons, List.nodup_cons] at hnd
    rcases List.mem_cons.mp h with he | he
    · have hk : k = k₀ := congrArg Prod.fst he
      have hv : v = v₀ := congrArg Prod.snd he
      subst hk; subst hv
      have hrest : ∀ v', (k, v') ∉ rest := by
        intro v' hv'
        exact hnd.1 (List.mem_map.mpr ⟨(k, v'), hv', rfl⟩)
      show lookupTag (merge_tags (insertTag tgt k v) rest) k = some v
      rw [lookupTag_merge_not_mem rest (insertTag tgt k v) k hrest,
          lookupTag_insertTag_self]
    · exact ih (insertTag tgt k₀ v₀) hnd.2 he

/-- Claim C7: for every pair of tag mappings, after `merge_tags(to, from)`:
every key present in `from` (so in particular every key present in both) maps
to `from`'s value; every key not present in `from` (so in particular a key
present only in `to`) keeps its value from `to`; and if `from` is empty, `to`
is unchanged.  The hypothesis that `from`'s keys are distinct is the `HashMap`
key-uniqueness invariant of the source type. -/
theorem merge_tags_spec (tgt src : Tags) (hnd : (src.map Prod.fst).Nodup) :
    (∀ k v, (k, v) ∈ src → lookupTag (merge_tags tgt src) k = some v) ∧
    (∀ k, (∀ v, (k, v) ∉ src) → lookupTag (merge_tags tgt src) k = lookupTag tgt k) ∧
    merge_tags tgt [] = tgt :=
  ⟨fun k v h => lookupTag_merge_mem src tgt k v hnd h,
   fun k h => lookupTag_merge_not_mem src tgt k h,
   rfl⟩

/-- Witness for C7: the merge property instantiated on the repository's own
test fixture, `to = [("1", "3")]`, `from = [("1", "2")]`. -/
theorem merge_tags_spec_witness :
    (([("1", "2")] : Tags).map Prod.fst).Nodup ∧
    ((∀ k v, (k, v) ∈ ([("1", "2")] : Tags) →
      lookupTag (merge_tags [("1", "3")] [("1", "2")]) k = some v) ∧
    (∀ k, (∀ v, (k, v) ∉ ([("1", "2")] : Tags)) →
      lookupTag (merge_tags [("1", "3")] [("1", "2")]) k = lookupTag [("1", "3")] k) ∧
    merge_tags [("1", "3")] [] = [("1", "3")]) :=
  ⟨by simp, merge_tags_spec [("1", "3")] [("1", "2")] (by simp)⟩

/-! ## Claim theorems: projection conversion frame conditions -/

/-- Claim C9: for every `OsmData` and either direction of conversion
(`convert_to` or `revert_from`, with any projection), only the node positions
change: the way mapping, the bounds field and all dataset metadata strings
are unchanged, and every node keeps its key, id, timestamp, version,
changeset, user and tags. -/
theorem convert_frame (d : OsmData) (p : Projection) :
    (d.convert_to p).version = d.version ∧
    (d.convert_to p).generator = d.generator ∧
    (d.convert_to p).copyright = d.copyright ∧
    (d.convert_to p).attribution = d.attribution ∧
    (d.convert_to p).license = d.license ∧
    (d.convert_to p).bounds = d.bounds ∧
    (d.convert_to p).ways = d.ways ∧
    ((d.convert_to p).nodes.map fun q =>
        (q.1, q.2.id, q.2.timestamp, q.2.version, q.2.changeset, q.2.user, q.2.tags))
      = (d.nodes.map fun q =>
        (q.1, q.2.id, q.2.timestamp, q.2.version, q.2.changeset, q.2.user, q.2.tags)) ∧
    (d.revert_from p).version = d.version ∧
    (d.revert_from p).generator = d.generator ∧
    (d.revert_from p).copyright = d.copyright ∧
    (d.revert_from p).attribution = d.attribution ∧
    (d.revert_from p).license = d.license ∧
    (d.revert_from p).bounds = d.bounds ∧
    (d.revert_from p).ways = d.ways ∧
    ((d.revert_from p).nodes.map fun q =>
        (q.1, q.2.id, q.2.timestamp, q.2.version, q.2.changeset, q.2.user, q.2.tags))
      = (d.nodes.map fun q =>
        (q.1, q.2.id, q.2.timestamp, q.2.version, q.2.changeset, q.2.user, q.2.tags)) := by
  refine ⟨rfl, rfl, rfl, rfl, rfl, rfl, rfl, ?_, rfl, rfl, rfl, rfl, rfl, rfl, rfl, ?_⟩ <;>
    simp [OsmData.convert_to, OsmData.revert_from, Node.convert_to, Node.revert_from]

/-! ## Claim theorems: Web Mercator round trip -/

/-- Claim C2: for every latitude strictly between -90 and 90 degrees and
every longitude, applying `convert_to(WebMercator)` and then
`revert_from(WebMercator)` recovers the original coordinate.  Over the
real-valued model of `Float` the recovery is exact (hence in particular
within the claimed 1e-5 tolerance); the longitude leg is the linear scale
`x = R·lon·π/180`, which inverts for any longitude including ±180. -/
theorem webmercator_roundtrip (c : Coordinate) (h1 : -90 < c.lat) (h2 : c.lat < 90) :
    (c.convert_to Projection.WebMercator).revert_from Projection.WebMercator = c := by
  have hπ : (0 : ℝ) < π := Real.pi_pos
  have hπne : (π : ℝ) ≠ 0 := ne_of_gt hπ
  have hR : (6378137 : ℝ) ≠ 0 := by norm_num
  rw [Coordinate.eq_iff_parts]
  constructor
  · show y2lat (lat2y c.lat) = c.lat
    unfold y2lat lat2y toRadians toDegrees Rearth
    have hθ0 : 0 < c.lat * (π / 180) / 2 + π / 4 := by
      nlinarith [mul_pos (show (0:ℝ) < c.lat + 90 by linarith) hπ]
    have hθ2 : c.lat * (π / 180) / 2 + π / 4 < π / 2 := by
      nlinarith [mul_pos (show (0:ℝ) < 90 - c.lat by linarith) hπ]
    have htan : 0 < Real.tan (c.lat * (π / 180) / 2 + π / 4) :=
      Real.tan_pos_of_pos_of_lt_pi_div_two hθ0 hθ2
    rw [mul_div_cancel_right₀ _ hR, Real.exp_log htan,
        Real.arctan_tan (by linarith) hθ2]
    field_simp
    ring
  · show x2lon (lon2x c.lon) = c.lon
    unfold x2lon lon2x toRadians toDegrees Rearth
    rw [mul_div_cancel_left₀ _ hR]
    field_simp

/-- Witness for C2: the round trip instantiated at the coordinate
`(0, 180)` — an interior latitude together with the extreme longitude. -/
theorem webmercator_roundtrip_witness :
    (-90 < (Coordinate.mk 0 180).lat ∧ (Coordinate.mk 0 180).lat < 90) ∧
    ((Coordinate.mk 0 180).convert_to Projection.WebMercator).revert_from
        Projection.WebMercator = Coordinate.mk 0 180 :=
  ⟨⟨by norm_num, by norm_num⟩,
   webmercator_roundtrip (Coordinate.mk 0 180) (by norm_num) (by norm_num)⟩

/-! ## Claim theorems: parsing -/

theorem buildMaps_error (elems : List Json) (ns : Nodes) (ws : Ways)
    (h : ∃ e ∈ elems, ∃ msg, stepDecode e = Except.error msg) :
    ∃ msg, buildMaps elems ns ws = Except.error msg := by
  induction elems generalizing ns ws with
  | nil =>
    obtain ⟨e, he, _⟩ := h
    cases he
  | cons e rest ih =>
    obtain ⟨e', he', msg', hmsg'⟩ := h
    rcases List.mem_cons.mp he' with he | hmem
    · subst he
      exact ⟨msg', by unfold buildMaps; rw [hmsg']⟩
    · cases hstep : stepDecode e with
      | error m => exact ⟨m, by unfold buildMaps; rw [hstep]⟩
      | ok el =>
        have hterm : ∃ e ∈ rest, ∃ msg, stepDecode e = Except.error msg :=
          ⟨e', hmem, msg', hmsg'⟩
        cases el with
        | node n =>
          obtain ⟨m, hm⟩ := ih (insertById ns n.id (Node.ofRaw n)) ws hterm
          exact ⟨m, by unfold buildMaps; rw [hstep]; exact hm⟩
        | way w =>
          obtain ⟨m, hm⟩ := ih ns (insertById ws w.id w) hterm
          exact ⟨m, by unfold buildMaps; rw [hstep]; exact hm⟩
        | relation =>
          obtain ⟨m, hm⟩ := ih ns ws hterm
          exact ⟨m, by unfold buildMaps; rw [hstep]; exact hm⟩

/-- Claim C4: whenever any element of the envelope fails to decode (its
`type` discriminator missing or not a string, its schema fields malformed,
or its `type` unrecognized — e.g. `"intersection"`), the whole conversion
returns an error and never an `OsmData`, no matter how many elements had
decoded before: no partially populated aggregate is ever returned. -/
theorem tryFrom_fails_on_bad_element (raw : RawOsmData)
    (h : ∃ e ∈ raw.elements, ∃ msg, stepDecode e = Except.error msg) :
    (∃ msg, OsmData.tryFrom raw = Except.error msg) ∧
    ∀ d, OsmData.tryFrom raw ≠ Except.ok d := by
  obtain ⟨msg, hmsg⟩ := buildMaps_error raw.elements [] [] h
  constructor
  · exact ⟨msg, by unfold OsmData.tryFrom; rw [hmsg]; rfl⟩
  · intro d hd
    unfold OsmData.tryFrom at hd
    rw [hmsg] at hd
    cases hd

/-- Witness for C4: the failure theorem instantiated on the concrete
envelope whose only element is tagged `"intersection"`. -/
theorem tryFrom_fails_on_bad_element_witness :
    (∃ e ∈ rawBad.elements, ∃ msg, stepDecode e = Except.error msg) ∧
    ((∃ msg, OsmData.tryFrom rawBad = Except.error msg) ∧
     ∀ d, OsmData.tryFrom rawBad ≠ Except.ok d) :=
  have h : ∃ e ∈ rawBad.elements, ∃ msg, stepDecode e = Except.error msg :=
    ⟨intersectionJson, by simp [rawBad], "invalid element type", by
      simp [stepDecode, intersectionJson, Json.index, jlookup, Json.as_str]⟩
  ⟨h, tryFrom_fails_on_bad_element rawBad h⟩

/-- Claim C5: parsing the envelope whose `elements` array holds exactly one
`"node"`, one `"way"` and one `"relation"` element succeeds, the node mapping
holds exactly one entry keyed by the node's id (10) whose stored id equals
that key, the way mapping holds exactly one entry keyed by the way's id (20)
likewise, and the relation contributes nothing and causes no error. -/
theorem tryFrom_mixed_ok :
    (OsmData.tryFrom rawMixed).map
        (fun d => (d.nodes.map fun q => (q.1, q.2.id),
                   d.ways.map fun q => (q.1, q.2.id)))
      = Except.ok ([(10, 10)], [(20, 20)]) := by
  rfl

end Osm
